import Mathlib

/-!
Verification of the ZaroHR-Insights temporal-reconstruction and
attrition-analytics engine (backend/app/main.py).

The development shallowly embeds the query-builder functions and the pure
Python helpers of the main module:

* calendar dates are a `Date` structure (year/month/day as `Int`) compared
  chronologically (lexicographically), with the Gregorian month lengths of
  `_days_in_month` / `calendar.monthrange` / PostgreSQL;
* SQL `NULL`-able columns are `Option` values;
* Python floats in the attrition post-processing become `ℚ` (the claims are
  exact identities, not rounding statements);
* each SQL query is embedded as a pure function over the list of rows the
  query would see.
-/

namespace ZaroHR

/-- A calendar date, `year`-`month`-`day`. -/
@[ext]
structure Date where
  year : Int
  month : Int
  day : Int
deriving DecidableEq, Repr

/-- Gregorian leap-year rule, as in `_days_in_month` (and `calendar.isleap`):
`(y % 4 == 0 and y % 100 != 0) or (y % 400 == 0)`. -/
def isLeap (y : Int) : Bool :=
  (y.emod 4 == 0 && y.emod 100 != 0) || (y.emod 400 == 0)

/-- `_days_in_month(year, month)` from `main.py` (identical to
`calendar.monthrange(year, month)[1]` for months 1..12). -/
def days_in_month (y m : Int) : Int :=
  if m = 1 ∨ m = 3 ∨ m = 5 ∨ m = 7 ∨ m = 8 ∨ m = 10 ∨ m = 12 then 31
  else if m = 4 ∨ m = 6 ∨ m = 9 ∨ m = 11 then 30
  else if isLeap y then 29 else 28

/-- `d` is a well-formed calendar date. -/
def Date.valid (d : Date) : Prop :=
  1 ≤ d.month ∧ d.month ≤ 12 ∧ 1 ≤ d.day ∧ d.day ≤ days_in_month d.year d.month

instance (d : Date) : Decidable d.valid := by
  unfold Date.valid
  infer_instance

/-- Chronological (lexicographic) `≤` on dates, as a Bool. -/
def dle (a b : Date) : Bool :=
  a.year < b.year ||
    (a.year == b.year &&
      (a.month < b.month || (a.month == b.month && a.day ≤ b.day)))

/-- Chronological (lexicographic) `<` on dates, as a Bool. -/
def dlt (a b : Date) : Bool :=
  a.year < b.year ||
    (a.year == b.year &&
      (a.month < b.month || (a.month == b.month && a.day < b.day)))

theorem dle_iff (a b : Date) :
    dle a b = true ↔
      (a.year < b.year ∨
        (a.year = b.year ∧
          (a.month < b.month ∨ (a.month = b.month ∧ a.day ≤ b.day)))) := by
  simp [dle]

theorem dlt_iff (a b : Date) :
    dlt a b = true ↔
      (a.year < b.year ∨
        (a.year = b.year ∧
          (a.month < b.month ∨ (a.month = b.month ∧ a.day < b.day)))) := by
  simp [dlt]

/-- SQL `LEAST` on two dates. -/
def minDate (a b : Date) : Date :=
  if dle a b then a else b

/-- An HTTP error raised via `HTTPException(status_code=..., detail=...)`. -/
structure HTTPErr where
  status : Nat
  detail : String
deriving DecidableEq, Repr

/-! ## Month-key parsing (`_month_range_from_key`) -/

/-- Value of a decimal digit string, most significant digit first. -/
def digitsVal (l : List Char) : Int :=
  l.foldl (fun acc c => acc * 10 + ((c.toNat : Int) - 48)) 0

/-- Models Python `int(s)` restricted to plain decimal-digit strings (the only
shape a month key component can take): `some` of the value when `s` is a
non-empty string of digits, `none` (a `ValueError`) otherwise. -/
def parseDecimal (l : List Char) : Option Int :=
  if l ≠ [] ∧ l.all Char.isDigit then some (digitsVal l) else none

/-- Python `month_key.split("-", 1)`: split at the first "-" only; `none` when
there is no "-" at all (so that unpacking into two names raises
`ValueError`). -/
def splitFirstDash (l : List Char) : Option (List Char × List Char) :=
  match l with
  | [] => none
  | c :: rest =>
    if c = '-' then some ([], rest)
    else
      match splitFirstDash rest with
      | none => none
      | some (a, b) => some (c :: a, b)

/-- `_month_range_from_key(month_key)` from `main.py`: split on the first "-",
parse both parts as integers (failure at either step raises HTTP 400
"Invalid month key format."), reject months outside 1..12 with HTTP 400
"Invalid month key value.", and otherwise return the first and last day of the
month (`calendar.monthrange` supplies the last day). -/
def month_range_from_key (month_key : String) : Except HTTPErr (Date × Date) :=
  match splitFirstDash month_key.data with
  | none => .error ⟨400, "Invalid month key format."⟩
  | some (yearStr, monthStr) =>
    match parseDecimal yearStr, parseDecimal monthStr with
    | some year, some month =>
      if month < 1 ∨ 12 < month then .error ⟨400, "Invalid month key value."⟩
      else .ok (⟨year, month, 1⟩, ⟨year, month, days_in_month year month⟩)
    | _, _ => .error ⟨400, "Invalid month key format."⟩

/-- The HTTP 404 raised by `_resolve_org_month_scope` when a month key does not
match any `DashboardMonth` row (the NotFound taxonomy entry). -/
def monthNotFound : HTTPErr := ⟨404, "Dashboard month not found."⟩

/-! ## Period resolution (`_resolve_period`) -/

/-- The requested reporting granularity. -/
inductive Granularity where
  | monthly
  | quarterly
  | yearly
deriving DecidableEq, Repr

/-- `_month_floor`: first of the month. -/
def month_floor (d : Date) : Date := ⟨d.year, d.month, 1⟩

/-- `_quarter_floor`: first month of the containing calendar quarter. -/
def quarter_floor (d : Date) : Date :=
  ⟨d.year, ((d.month - 1).ediv 3) * 3 + 1, 1⟩

/-- `_year_floor`: January 1. -/
def year_floor (d : Date) : Date := ⟨d.year, 1, 1⟩

/-- `_shift_months(value, months)`: add `months` calendar months, clamping the
day to the target month's length (Python `//` and `%` are floor division and
nonnegative remainder, i.e. `ediv`/`emod` for the positive modulus 12). -/
def shift_months (d : Date) (months : Int) : Date :=
  let y := d.year + (d.month - 1 + months).ediv 12
  let m := (d.month - 1 + months).emod 12 + 1
  ⟨y, m, min d.day (days_in_month y m)⟩

/-- `_resolve_period(granularity, start, end)` from `main.py`, with `today`
passed explicitly (the Python reads `date.today()`): default window bounds are
granularity floors of today shifted back 11 months / 15 quarters / 9 years;
explicit `start`/`end` take precedence; `end < start` raises HTTP 400. -/
def resolve_period (g : Granularity) (today : Date)
    (start? : Option Date) (end? : Option Date) :
    Except HTTPErr (Date × Date) :=
  let floorF : Date → Date :=
    match g with
    | .monthly => month_floor
    | .quarterly => quarter_floor
    | .yearly => year_floor
  let startDefault : Date :=
    match g with
    | .monthly => shift_months (floorF today) (-11)
    | .quarterly => shift_months (floorF today) ((-15) * 3)
    | .yearly =>
      let f := floorF today
      ⟨f.year + (-9), f.month, f.day⟩
  let endDefault := floorF today
  let resolvedStart := start?.getD startDefault
  let resolvedEnd := end?.getD endDefault
  if dlt resolvedEnd resolvedStart then
    .error ⟨400, "End date must be after start date."⟩
  else
    .ok (resolvedStart, resolvedEnd)

/-- C7: the malformed month key "2024-13" fails with the HTTP 400
InvalidArgument error "Invalid month key value." — a client-input status
distinct from the 404 NotFound used for unknown month keys — while "2024-02"
resolves to February 2024, whose last day is 29 in the 2024 leap year, without
error. -/
theorem c7_month_key_parsing :
    month_range_from_key "2024-13" = .error ⟨400, "Invalid month key value."⟩ ∧
      (400 : Nat) ≠ monthNotFound.status ∧
      month_range_from_key "2024-02" = .ok (⟨2024, 2, 1⟩, ⟨2024, 2, 29⟩) := by
  refine ⟨?_, by decide, ?_⟩ <;> rfl

/-- C8: with both `start` and `end` supplied explicitly, `_resolve_period`
fails with the HTTP 400 InvalidRange error exactly when `end < start`, and
otherwise returns the pair verbatim; in particular `end = start` succeeds. -/
theorem c8_period_resolution (g : Granularity) (today s e : Date) :
    (dlt e s = true →
      resolve_period g today (some s) (some e) =
        .error ⟨400, "End date must be after start date."⟩) ∧
    (dlt e s = false →
      resolve_period g today (some s) (some e) = .ok (s, e)) ∧
    resolve_period g today (some s) (some s) = .ok (s, s) := by
  refine ⟨?_, ?_, ?_⟩
  · intro h
    simp [resolve_period, h]
  · intro h
    simp [resolve_period, h]
  · have h : dlt s s = false := by
      simp [dlt]
    simp [resolve_period, h]

/-- Witness for C8 at granularity monthly, today = 2024-07-10,
start = 2024-03-05, end = 2024-01-02 (end before start) and the verbatim and
degenerate cases at start = end = 2024-03-05. -/
theorem c8_period_resolution_witness :
    (dlt ⟨2024, 1, 2⟩ ⟨2024, 3, 5⟩ = true →
      resolve_period .monthly ⟨2024, 7, 10⟩ (some ⟨2024, 3, 5⟩)
          (some ⟨2024, 1, 2⟩) =
        .error ⟨400, "End date must be after start date."⟩) ∧
    (dlt ⟨2024, 1, 2⟩ ⟨2024, 3, 5⟩ = false →
      resolve_period .monthly ⟨2024, 7, 10⟩ (some ⟨2024, 3, 5⟩)
          (some ⟨2024, 1, 2⟩) = .ok (⟨2024, 3, 5⟩, ⟨2024, 1, 2⟩)) ∧
    resolve_period .monthly ⟨2024, 7, 10⟩ (some ⟨2024, 3, 5⟩)
        (some ⟨2024, 3, 5⟩) = .ok (⟨2024, 3, 5⟩, ⟨2024, 3, 5⟩) :=
  c8_period_resolution .monthly ⟨2024, 7, 10⟩ ⟨2024, 3, 5⟩ ⟨2024, 1, 2⟩

/-! ## Activity rules (C2)

`_build_manpower_sql` counts, per series point `s.period_start`, the `latest`
records with

    "DOJ" IS NOT NULL AND "DOJ" <= s.period_start
    AND ("Final LWD" IS NULL OR "Final LWD" >= s.period_start + INTERVAL step)

while `_build_demographics_sql` restricts `latest` with, when no explicit
range is requested,

    "DOJ" IS NOT NULL AND date_trunc('day', "DOJ") <= cutoff
    AND ("Final LWD" IS NULL OR cutoff < date_trunc('day', "Final LWD"))

and, when an explicit range [start, end] is requested,

    "DOJ" IS NOT NULL AND date_trunc('day', "DOJ") <= end
    AND ("Final LWD" IS NULL OR date_trunc('day', "Final LWD") >= start)

`bucketEnd` below stands for `period_start + INTERVAL step`, the exclusive end
of the bucket. -/

/-- The headcount-series activity test of `_build_manpower_sql`. -/
def manpowerActiveInBucket (doj lwd : Option Date)
    (periodStart bucketEnd : Date) : Bool :=
  match doj with
  | none => false
  | some d =>
    dle d periodStart &&
      (match lwd with
       | none => true
       | some l => dle bucketEnd l)

/-- The point-in-time activity test of `_build_demographics_sql`
(no explicit range requested). -/
def demographicsActivePoint (doj lwd : Option Date) (cutoff : Date) : Bool :=
  match doj with
  | none => false
  | some d =>
    dle d cutoff &&
      (match lwd with
       | none => true
       | some l => dlt cutoff l)

/-- The range activity test of `_build_demographics_sql`
(explicit range [rangeStart, rangeEnd] requested). -/
def demographicsActiveRange (doj lwd : Option Date)
    (rangeStart rangeEnd : Date) : Bool :=
  match doj with
  | none => false
  | some d =>
    dle d rangeEnd &&
      (match lwd with
       | none => true
       | some l => dle rangeStart l)

/-- Modelled from the spec: active in a bucket `[T, T+W)` iff DOJ is non-null,
`DOJ ≤ T`, and (LWD is null or `LWD ≥ T+W`) — full-bucket survival. -/
def specFullBucketSurvival (doj lwd : Option Date)
    (periodStart bucketEnd : Date) : Prop :=
  ∃ d, doj = some d ∧ dle d periodStart = true ∧
    (lwd = none ∨ ∃ l, lwd = some l ∧ dle bucketEnd l = true)

/-- Modelled from the spec: active on the cutoff date iff `DOJ ≤ cutoff` and
(LWD null or `LWD > cutoff`). -/
def specActiveOnCutoff (doj lwd : Option Date) (cutoff : Date) : Prop :=
  ∃ d, doj = some d ∧ dle d cutoff = true ∧
    (lwd = none ∨ ∃ l, lwd = some l ∧ dlt cutoff l = true)

/-- Modelled from the spec: active at any point during `[start, end]` iff
`DOJ ≤ end` and (LWD null or `LWD ≥ start`). -/
def specActiveDuringRange (doj lwd : Option Date)
    (rangeStart rangeEnd : Date) : Prop :=
  ∃ d, doj = some d ∧ dle d rangeEnd = true ∧
    (lwd = none ∨ ∃ l, lwd = some l ∧ dle rangeStart l = true)

/-- C2: the headcount-series metric uses full-bucket survival
(`LWD ≥ T+W`), the demographics aggregator uses the point rule
(`LWD > cutoff`) without an explicit range and the range rule
(`LWD ≥ start`, `DOJ ≤ end`) with one; each SQL test is equivalent to the
corresponding spec rule, and the bucket rule is strictly stricter than the
point rule at the bucket open (witnessed by an employee whose LWD falls inside
the bucket). -/
theorem c2_activity_rules (doj lwd : Option Date)
    (periodStart bucketEnd cutoff rangeStart rangeEnd : Date) :
    (manpowerActiveInBucket doj lwd periodStart bucketEnd = true ↔
      specFullBucketSurvival doj lwd periodStart bucketEnd) ∧
    (demographicsActivePoint doj lwd cutoff = true ↔
      specActiveOnCutoff doj lwd cutoff) ∧
    (demographicsActiveRange doj lwd rangeStart rangeEnd = true ↔
      specActiveDuringRange doj lwd rangeStart rangeEnd) ∧
    (manpowerActiveInBucket (some ⟨2024, 1, 1⟩) (some ⟨2024, 7, 20⟩)
        ⟨2024, 7, 1⟩ ⟨2024, 8, 1⟩ = false ∧
      demographicsActivePoint (some ⟨2024, 1, 1⟩) (some ⟨2024, 7, 20⟩)
        ⟨2024, 7, 1⟩ = true) := by
  refine ⟨?_, ?_, ?_, by decide⟩ <;>
    cases doj <;> cases lwd <;>
      simp [manpowerActiveInBucket, demographicsActivePoint,
        demographicsActiveRange, specFullBucketSurvival, specActiveOnCutoff,
        specActiveDuringRange]

/-! ## Attrition post-processing (C3, C10)

`attrition_analytics` in `main.py` post-processes each SQL row with the nested
helpers `_months_covered`, `_average_headcount`, `_attrition` and
`_annualized_attrition`.  A row is modelled by the five values those helpers
read; a `none` field models both a missing key and a value on which Python's
`float(...)` raises (`TypeError`/`ValueError`). -/

/-- The fields of one attrition row that the post-processing helpers read. -/
structure AttrRow where
  months_covered : Option ℚ
  headcount_start : Option ℚ
  headcount_end : Option ℚ
  exits : Option ℚ
  monthly_sum : Option ℚ
deriving DecidableEq, Repr

/-- `_months_covered(row)`: coerce a missing/non-numeric or non-positive
months value to 12.0 and cap the result at 12.0. -/
def months_covered_val (row : AttrRow) : ℚ :=
  match row.months_covered with
  | none => 12
  | some m => if m ≤ 0 then 12 else min m 12

/-- `_average_headcount(row, ...)` with a monthly-sum key supplied (as at
every call site): `monthly_sum / months` when the monthly sum is positive
(and the months value, always positive after coercion, is positive too),
otherwise `(start + end) / 2`. -/
def average_headcount (row : AttrRow) : ℚ :=
  let s := row.headcount_start.getD 0
  let e := row.headcount_end.getD 0
  let baseAvg := (s + e) / 2
  let months := months_covered_val row
  let monthly := row.monthly_sum.getD 0
  if 0 < monthly ∧ 0 < months then monthly / months else baseAvg

/-- `_attrition(row, ...)`: exits over the selected denominator, 0 when the
denominator is 0. -/
def attrition_val (row : AttrRow) : ℚ :=
  let exits := row.exits.getD 0
  let denom := average_headcount row
  if denom = 0 then 0 else exits / denom

/-- `_annualized_attrition(row, ...)`: the raw rate when the coerced months
value is at least 12, otherwise the raw rate scaled by `12 / months`. -/
def annualized_attrition (row : AttrRow) : ℚ :=
  let rate := attrition_val row
  let months := months_covered_val row
  if 12 ≤ months then rate else rate * (12 / months)

/-- C3: for every attrition row, the denominator is
`monthly_sum / months_covered` whenever the monthly sum is positive and the
(coerced) months value is positive, and otherwise
`(headcount_start + headcount_end) / 2`; the raw rate is `exits / denominator`
(0 when the denominator is 0); the annualized rate equals the raw rate when
the months value is at least 12 and `raw * (12 / months)` otherwise — in
particular it equals the raw rate exactly when the months value is 12. -/
theorem c3_attrition_pipeline (row : AttrRow) :
    (0 < row.monthly_sum.getD 0 ∧ 0 < months_covered_val row →
      average_headcount row = row.monthly_sum.getD 0 / months_covered_val row) ∧
    (¬(0 < row.monthly_sum.getD 0 ∧ 0 < months_covered_val row) →
      average_headcount row =
        (row.headcount_start.getD 0 + row.headcount_end.getD 0) / 2) ∧
    (average_headcount row = 0 → attrition_val row = 0) ∧
    (average_headcount row ≠ 0 →
      attrition_val row = row.exits.getD 0 / average_headcount row) ∧
    (12 ≤ months_covered_val row →
      annualized_attrition row = attrition_val row) ∧
    (months_covered_val row < 12 →
      annualized_attrition row =
        attrition_val row * (12 / months_covered_val row)) ∧
    (months_covered_val row = 12 →
      annualized_attrition row = attrition_val row) := by
  refine ⟨?_, ?_, ?_, ?_, ?_, ?_, ?_⟩
  · intro h
    simp only [average_headcount, if_pos h]
  · intro h
    simp only [average_headcount, if_neg h]
  · intro h
    simp only [attrition_val, if_pos h]
  · intro h
    simp only [attrition_val, if_neg h]
  · intro h
    simp only [annualized_attrition, if_pos h]
  · intro h
    simp only [annualized_attrition, if_neg (not_le.mpr h)]
  · intro h
    simp only [annualized_attrition, h, if_pos le_rfl]

/-- Witness for C3 at the row with months 12, start 8, end 12, exits 3,
monthly sum 120 (denominator 120/12 = 10, raw rate 3/10, annualized equal). -/
theorem c3_attrition_pipeline_witness :
    (0 < (AttrRow.mk (some 12) (some 8) (some 12) (some 3)
        (some 120)).monthly_sum.getD 0 ∧
      0 < months_covered_val
        (AttrRow.mk (some 12) (some 8) (some 12) (some 3) (some 120))) ∧
    average_headcount
        (AttrRow.mk (some 12) (some 8) (some 12) (some 3) (some 120)) =
      (AttrRow.mk (some 12) (some 8) (some 12) (some 3)
          (some 120)).monthly_sum.getD 0 /
        months_covered_val
          (AttrRow.mk (some 12) (some 8) (some 12) (some 3) (some 120)) ∧
    (months_covered_val
        (AttrRow.mk (some 12) (some 8) (some 12) (some 3) (some 120)) = 12 ∧
      annualized_attrition
          (AttrRow.mk (some 12) (some 8) (some 12) (some 3) (some 120)) =
        attrition_val
          (AttrRow.mk (some 12) (some 8) (some 12) (some 3) (some 120))) := by
  have hm : 0 < (AttrRow.mk (some 12) (some 8) (some 12) (some 3)
      (some 120)).monthly_sum.getD 0 ∧
      0 < months_covered_val
        (AttrRow.mk (some 12) (some 8) (some 12) (some 3) (some 120)) := by
    constructor <;> decide
  have h12 : months_covered_val
      (AttrRow.mk (some 12) (some 8) (some 12) (some 3) (some 120)) = 12 := by
    decide
  exact ⟨hm,
    (c3_attrition_pipeline
      (AttrRow.mk (some 12) (some 8) (some 12) (some 3) (some 120))).1 hm,
    h12,
    (c3_attrition_pipeline
      (AttrRow.mk (some 12) (some 8) (some 12) (some 3)
        (some 120))).2.2.2.2.2.2 h12⟩

/-- C10: on every row — whatever the query returned in `months_covered`,
including a missing, non-numeric or non-positive value — the coerced months
value lies in (0, 12], so the annualization multiplier `12 / months` is at
least 1 and the annualization step never divides by zero. -/
theorem c10_months_coercion (row : AttrRow) :
    0 < months_covered_val row ∧
      months_covered_val row ≤ 12 ∧
      1 ≤ 12 / months_covered_val row := by
  have h : 0 < months_covered_val row ∧ months_covered_val row ≤ 12 := by
    unfold months_covered_val
    match row.months_covered with
    | none => norm_num
    | some m =>
      by_cases hm : m ≤ 0
      · simp [hm]
      · simp only [if_neg hm]
        push_neg at hm
        constructor
        · exact lt_min hm (by norm_num)
        · exact min_le_right _ _
  refine ⟨h.1, h.2, ?_⟩
  rw [le_div_iff₀ h.1, one_mul]
  exact h.2

/-! ## Gender ratio of the demographics summary (C9)

`_build_demographics_sql` counts, over the active rows,
`SUM(CASE WHEN gender ILIKE 'F%' THEN 1 ELSE 0 END)` and the same for 'M%';
`demographics_overview` then takes `other_count = max(total - female - male, 0)`
and divides each count by the total via `_pct` (0 when the total is 0). -/

/-- SQL `gender ILIKE c || '%'` for a single letter `c`: case-insensitive
prefix match on the first character; a NULL gender never matches. -/
def genderFirstIs (c : Char) (g : Option String) : Bool :=
  match g with
  | none => false
  | some s =>
    match s.data with
    | [] => false
    | ch :: _ => ch.toLower == c

/-- `_pct(value, denom)` from `demographics_overview`: `value / denom`, 0 when
the denominator is 0. -/
def pct (value denom : ℚ) : ℚ :=
  if denom = 0 then 0 else value / denom

/-- The gender-ratio block of `demographics_overview`, computed from the
gender column of the active rows: `(malePct, femalePct, otherPct)` with
`other_count = max(total_headcount - female_count - male_count, 0)`. -/
def genderRatio (genders : List (Option String)) : ℚ × ℚ × ℚ :=
  let total : Int := genders.length
  let femaleCount : Int := (genders.filter (genderFirstIs 'f')).length
  let maleCount : Int := (genders.filter (genderFirstIs 'm')).length
  let otherCount : Int := max (total - femaleCount - maleCount) 0
  (pct maleCount total, pct femaleCount total, pct otherCount total)

theorem length_filter_disjoint {α : Type} (l : List α) (p q : α → Bool)
    (h : ∀ x, ¬(p x = true ∧ q x = true)) :
    (l.filter p).length + (l.filter q).length ≤ l.length := by
  induction l with
  | nil => simp
  | cons a t ih =>
    by_cases hp : p a = true
    · have hq : q a = false := by
        by_contra hq'
        exact h a ⟨hp, by revert hq'; cases q a <;> simp⟩
      simp only [List.filter_cons, hp, hq, if_pos, if_neg, List.length_cons,
        Bool.false_eq_true, ite_false, ite_true]
      omega
    · by_cases hq : q a = true <;>
        simp only [List.filter_cons, hp, hq, List.length_cons,
          Bool.false_eq_true, ite_false, ite_true] <;>
        omega

/-- C9: for every list of gender values of the active population, the male,
female and other fractions of the gender-ratio summary are each in [0, 1];
they are all 0 when the total headcount is 0, and they sum to exactly 1
whenever the total headcount is positive (the 'F'- and 'M'-prefix matches
being disjoint, the "other" count is the exact remainder). -/
theorem c9_gender_ratio (genders : List (Option String)) :
    (0 ≤ (genderRatio genders).1 ∧ (genderRatio genders).1 ≤ 1) ∧
    (0 ≤ (genderRatio genders).2.1 ∧ (genderRatio genders).2.1 ≤ 1) ∧
    (0 ≤ (genderRatio genders).2.2 ∧ (genderRatio genders).2.2 ≤ 1) ∧
    (genders.length = 0 →
      (genderRatio genders).1 = 0 ∧ (genderRatio genders).2.1 = 0 ∧
        (genderRatio genders).2.2 = 0) ∧
    (0 < genders.length →
      (genderRatio genders).1 + (genderRatio genders).2.1 +
        (genderRatio genders).2.2 = 1) := by
  have hdisj : ∀ g : Option String,
      ¬(genderFirstIs 'f' g = true ∧ genderFirstIs 'm' g = true) := by
    intro g hg
    obtain ⟨hf, hm⟩ := hg
    match g with
    | none => simp [genderFirstIs] at hf
    | some s =>
      match hs : s.data with
      | [] => simp [genderFirstIs, hs] at hf
      | ch :: _ =>
        simp [genderFirstIs, hs] at hf hm
        rw [hf] at hm
        exact absurd hm (by decide)
  have hsum := length_filter_disjoint genders (genderFirstIs 'f')
    (genderFirstIs 'm') hdisj
  set total : Int := (genders.length : Int) with htotal
  set fc : Int := ((genders.filter (genderFirstIs 'f')).length : Int) with hfc
  set mc : Int := ((genders.filter (genderFirstIs 'm')).length : Int) with hmc
  have hf_le : fc ≤ total := by
    simp only [hfc, htotal]
    exact_mod_cast Nat.le_trans (Nat.le_add_right _ _) hsum
  have hm_le : mc ≤ total := by
    simp only [hmc, htotal]
    exact_mod_cast Nat.le_trans (Nat.le_add_left _ _) hsum
  have hfm_le : fc + mc ≤ total := by
    simp only [hfc, hmc, htotal]
    exact_mod_cast hsum
  have hf0 : 0 ≤ fc := by positivity
  have hm0 : 0 ≤ mc := by positivity
  have ht0 : 0 ≤ total := by positivity
  have hoc : max (total - fc - mc) 0 = total - fc - mc :=
    max_eq_left (by omega)
  by_cases htz : total = 0
  · have hfz : fc = 0 := by omega
    have hmz : mc = 0 := by omega
    refine ⟨?_, ?_, ?_, ?_, ?_⟩
    all_goals
      simp only [genderRatio, ← htotal, ← hfc, ← hmc, htz, hfz, hmz, pct]
    · norm_num
    · norm_num
    · norm_num
    · intro _
      norm_num
    · intro hpos
      exfalso
      rw [htotal] at htz
      omega
  · have htq : (total : ℚ) ≠ 0 := by exact_mod_cast htz
    have htqpos : (0 : ℚ) < total := by
      have : 0 < total := lt_of_le_of_ne ht0 (Ne.symm htz)
      exact_mod_cast this
    have hpct : ∀ v : Int, 0 ≤ v → v ≤ total →
        0 ≤ pct v total ∧ pct v total ≤ 1 := by
      intro v hv0 hvt
      unfold pct
      rw [if_neg htq]
      constructor
      · apply div_nonneg (by exact_mod_cast hv0) (le_of_lt htqpos)
      · rw [div_le_one htqpos]
        exact_mod_cast hvt
    refine ⟨?_, ?_, ?_, ?_, ?_⟩
    · simpa only [genderRatio, ← htotal, ← hfc, ← hmc] using
        hpct mc hm0 hm_le
    · simpa only [genderRatio, ← htotal, ← hfc, ← hmc] using
        hpct fc hf0 hf_le
    · simp only [genderRatio, ← htotal, ← hfc, ← hmc, hoc]
      exact hpct (total - fc - mc) (by omega) (by omega)
    · intro hz
      exfalso
      rw [htotal] at htz
      exact htz (by exact_mod_cast hz)
    · intro _
      simp only [genderRatio, ← htotal, ← hfc, ← hmc, hoc, pct, if_neg htq]
      push_cast
      field_simp
      ring

/-- Witness for C9 at the list [F, M, nonbinary, NULL]: fractions 1/4, 1/4,
1/2 summing to 1 with a positive total. -/
theorem c9_gender_ratio_witness :
    (0 < ([some "Female", some "Male", some "Nonbinary", none] :
        List (Option String)).length) ∧
      (genderRatio [some "Female", some "Male", some "Nonbinary", none]).1 +
        (genderRatio
          [some "Female", some "Male", some "Nonbinary", none]).2.1 +
        (genderRatio
          [some "Female", some "Male", some "Nonbinary", none]).2.2 = 1 :=
  ⟨by decide,
    (c9_gender_ratio [some "Female", some "Male", some "Nonbinary", none]).2.2.2.2
      (by decide)⟩

/-! ## Tenure-bucket attrition (C6)

`_build_tenure_sql` computes, for each bucket clause, the tenure in whole
months from the DOJ relative to a reference date (`y.year_start`,
`y.year_end`, `ed."Final LWD"` or `ms.month_end` for the start / end / exit /
monthly counts respectively):

    GREATEST((EXTRACT(YEAR FROM ref) - EXTRACT(YEAR FROM DOJ)) * 12
             + (EXTRACT(MONTH FROM ref) - EXTRACT(MONTH FROM DOJ))
             + CASE WHEN EXTRACT(DAY FROM ref) >= EXTRACT(DAY FROM DOJ)
                    THEN 0 ELSE -1 END, 0)

and filters it against the bucket bounds; the stored `Tenure` column is never
read by any bucket clause. -/

/-- The tenure-months expression of `_build_tenure_sql` (`tenure_months_expr`),
evaluated at reference date `ref` for join date `doj`. -/
def tenure_months (ref doj : Date) : Int :=
  max ((ref.year - doj.year) * 12 + (ref.month - doj.month) +
    (if doj.day ≤ ref.day then 0 else -1)) 0

/-- Modelled from the spec: the whole months of tenure from DOJ to the
reference date — the month count between the two year-months, minus one when
the reference day-of-month is before the DOJ day-of-month, floored at 0. -/
def specTenureMonths (ref doj : Date) : Int :=
  max ((ref.year * 12 + ref.month) - (doj.year * 12 + doj.month) -
    (if ref.day < doj.day then 1 else 0)) 0

/-- The `buckets` table of `_build_tenure_sql`: lower bound (inclusive, in
months) and optional upper bound (exclusive). -/
def tenureBuckets : List (Int × Option Int) :=
  [(0, some 6), (6, some 12), (12, some 24), (24, some 48),
    (48, some 120), (120, none)]

/-- `bucket_clause` membership: `lower ≤ m` and, when an upper bound exists,
`m < upper`. -/
def inTenureBucket (m : Int) (b : Int × Option Int) : Bool :=
  b.1 ≤ m &&
    (match b.2 with
     | none => true
     | some u => m < u)

/-- A snapshot record as read by the tenure query: the DOJ drives the
bucketing; the stored `Tenure` column is carried but never consulted. -/
structure TenureRecord where
  doj : Option Date
  lwd : Option Date
  tenure : Option ℚ
deriving DecidableEq, Repr

/-- Bucket test for a record's exit count: tenure at the record's own LWD
(the reference date of the `exits_*` clauses). -/
def exitInBucket (r : TenureRecord) (b : Int × Option Int) : Bool :=
  match r.doj, r.lwd with
  | some d, some l => inTenureBucket (tenure_months l d) b
  | _, _ => false

/-- C6: the tenure attrition uses exactly six buckets, bounded (in months) by
0-6, 6-12, 12-24 (1-2y), 24-48 (2-4y), 48-120 (4-10y) and 120+ (10y+); the
tenure-months expression agrees with the spec's whole-months rule and is
never negative, so every record's tenure falls in exactly one bucket; and the
bucket test reads only the DOJ relative to the reference date — changing the
stored `Tenure` column never changes it. -/
theorem c6_tenure_buckets :
    tenureBuckets.length = 6 ∧
    tenureBuckets = [(0, some 6), (6, some 12), (12, some 24), (24, some 48),
      (48, some 120), (120, none)] ∧
    (∀ ref doj : Date, tenure_months ref doj = specTenureMonths ref doj) ∧
    (∀ ref doj : Date, 0 ≤ tenure_months ref doj) ∧
    (∀ m : Int, 0 ≤ m →
      (tenureBuckets.filter (fun b => inTenureBucket m b)).length = 1) ∧
    (∀ (doj lwd : Option Date) (t t' : Option ℚ) (b : Int × Option Int),
      exitInBucket ⟨doj, lwd, t⟩ b = exitInBucket ⟨doj, lwd, t'⟩ b) := by
  refine ⟨rfl, rfl, ?_, ?_, ?_, ?_⟩
  · intro ref doj
    unfold tenure_months specTenureMonths
    by_cases h : doj.day ≤ ref.day
    · rw [if_pos h, if_neg (by omega)]
      congr 1
      ring
    · rw [if_neg h, if_pos (by omega)]
      congr 1
      ring
  · intro ref doj
    unfold tenure_months
    exact le_max_right _ _
  · intro m hm
    rw [← List.countP_eq_length_filter]
    simp only [tenureBuckets, List.countP_cons, List.countP_nil,
      inTenureBucket, Bool.and_eq_true, Bool.and_true, decide_eq_true_eq]
    split_ifs <;> omega
  · intro doj lwd t t' b
    cases doj <;> cases lwd <;> rfl

/-- Witness for C6: tenure of 30 whole months (DOJ 2022-01-15 at reference
2024-07-20) falls in exactly one bucket. -/
theorem c6_tenure_buckets_witness :
    (0 ≤ tenure_months ⟨2024, 7, 20⟩ ⟨2022, 1, 15⟩) ∧
      (tenureBuckets.filter
        (fun b => inTenureBucket
          (tenure_months ⟨2024, 7, 20⟩ ⟨2022, 1, 15⟩) b)).length = 1 :=
  ⟨by decide,
    c6_tenure_buckets.2.2.2.2.1 (tenure_months ⟨2024, 7, 20⟩ ⟨2022, 1, 15⟩)
      (by decide)⟩

/-! ## Fiscal-year windows (C4)

`_build_attrition_sql` (and the age/gender and tenure variants) compute, from
the `%(cutoff)s` parameter:

* `current_fy_start`: April 1 of the cutoff's year when its month is ≥ 4,
  April 1 of the previous year otherwise;
* for each `offset` in `generate_series(-3, 0)`:
  `year_start = current_fy_start + offset years`,
  `fy_year_end = current_fy_start + (offset+1) years`,
  `year_end = LEAST(fy_year_end, cutoff + 1 day)`;
* `months_covered = GREATEST(1, LEAST(12, years(age)*12 + months(age)
  + (1 if days(age) > 0 else 0)))` — since every `year_start` has day 1,
  PostgreSQL `age(year_end, year_start)` has month part
  `(Δyear)*12 + Δmonth` with no day borrow and day part `year_end.day - 1`;
* `label = ('YTD FY' if year_end < fy_year_end else 'FY') ||
  TO_CHAR(fy_year_end, 'YY')`. -/

/-- PostgreSQL `date + make_interval(years => k)`: add `k` years, clamping the
day to the target month's length. -/
def addYears (d : Date) (k : Int) : Date :=
  ⟨d.year + k, d.month, min d.day (days_in_month (d.year + k) d.month)⟩

/-- PostgreSQL `date + INTERVAL '1 day'`. -/
def nextDay (d : Date) : Date :=
  if d.day < days_in_month d.year d.month then ⟨d.year, d.month, d.day + 1⟩
  else if d.month < 12 then ⟨d.year, d.month + 1, 1⟩
  else ⟨d.year + 1, 1, 1⟩

/-- The `params` CTE: April 1 opening the fiscal year containing the cutoff. -/
def currentFyStart (cutoff : Date) : Date :=
  if 4 ≤ cutoff.month then ⟨cutoff.year, 4, 1⟩ else ⟨cutoff.year - 1, 4, 1⟩

/-- The `months_covered` expression of the `year_bounds` CTE, under the
invariant that `ys` (a `year_start`) has day 1, so that `age(ye, ys)` has
month part `(ye.year - ys.year) * 12 + (ye.month - ys.month)` and day part
`ye.day - ys.day`. -/
def windowMonthsCovered (ys ye : Date) : Int :=
  max 1 (min 12 ((ye.year - ys.year) * 12 + (ye.month - ys.month) +
    (if 0 < ye.day - ys.day then 1 else 0)))

/-- `TO_CHAR(date, 'YY')`: the last two digits of the year, zero padded. -/
def twoDigitYear (y : Int) : String :=
  toString ((y.emod 100).toNat / 10) ++ toString ((y.emod 100).toNat % 10)

/-- The label expression of the attrition queries. -/
def fyLabel (yearEnd fyYearEnd : Date) : String :=
  if dlt yearEnd fyYearEnd then "YTD FY" ++ twoDigitYear fyYearEnd.year
  else "FY" ++ twoDigitYear fyYearEnd.year

/-- One row of the `year_bounds` CTE together with its output label. -/
structure FiscalWindow where
  yearStart : Date
  yearEnd : Date
  fyYearEnd : Date
  months_covered : Int
  label : String
deriving DecidableEq, Repr

/-- The `year_bounds` row generated for one `offset`. -/
def fiscalWindow (cutoff : Date) (yearOffset : Int) : FiscalWindow :=
  let p := currentFyStart cutoff
  let ys := addYears p yearOffset
  let fye := addYears p (yearOffset + 1)
  let ye := minDate fye (nextDay cutoff)
  ⟨ys, ye, fye, windowMonthsCovered ys ye, fyLabel ye fye⟩

/-- The four `year_bounds` rows, in the `ORDER BY year_start` output order of
`generate_series(-3, 0)`. -/
def fiscalWindows (cutoff : Date) : List FiscalWindow :=
  [fiscalWindow cutoff (-3), fiscalWindow cutoff (-2),
    fiscalWindow cutoff (-1), fiscalWindow cutoff 0]

/-- Modelled from the spec: `months_covered` is the number of calendar months
spanned by the window, rounding a non-whole trailing day count up to the next
whole month, clamped to [1, 12]. -/
def specMonthsCovered (ys ye : Date) : Int :=
  max 1 (min 12 ((ye.year * 12 + ye.month) - (ys.year * 12 + ys.month) +
    (if ys.day < ye.day then 1 else 0)))

theorem dle_antisymm {a b : Date} (h1 : dle a b = true)
    (h2 : dle b a = true) : a = b := by
  rw [dle_iff] at h1 h2
  cases a
  cases b
  simp only [Date.mk.injEq]
  dsimp only at h1 h2
  omega

theorem dlt_of_dle_of_dlt {a b c : Date} (h1 : dle a b = true)
    (h2 : dlt b c = true) : dlt a c = true := by
  rw [dle_iff] at h1
  rw [dlt_iff] at h2 ⊢
  omega

theorem dle_of_dlt {a b : Date} (h : dlt a b = true) : dle a b = true := by
  rw [dlt_iff] at h
  rw [dle_iff]
  omega

theorem dlt_iff_dle_ne {a b : Date} :
    dlt a b = true ↔ (dle a b = true ∧ a ≠ b) := by
  rw [dlt_iff, dle_iff]
  cases a
  cases b
  simp only [ne_eq, Date.mk.injEq, not_and]
  constructor
  · intro h
    refine ⟨by omega, by omega⟩
  · intro ⟨h1, h2⟩
    omega

theorem minDate_eq_left {a b : Date} (h : dle a b = true) :
    minDate a b = a := by
  unfold minDate
  rw [if_pos h]

theorem minDate_eq_right {a b : Date} (h : dle b a = true) :
    minDate a b = b := by
  unfold minDate
  by_cases h2 : dle a b = true
  · rw [if_pos h2]
    exact dle_antisymm h2 h
  · rw [if_neg h2]

theorem days_in_month_april (y : Int) : days_in_month y 4 = 30 := by
  norm_num [days_in_month]

theorem addYears_april (y k : Int) :
    addYears ⟨y, 4, 1⟩ k = ⟨y + k, 4, 1⟩ := by
  unfold addYears
  simp [days_in_month_april]

theorem fy_window_start_le_cutoff (cutoff : Date) (h : cutoff.valid)
    (k : Int) (hk : k ≤ 0) :
    dle (addYears (currentFyStart cutoff) k) cutoff = true := by
  obtain ⟨h1, h2, h3, h4⟩ := h
  unfold currentFyStart
  by_cases hm : 4 ≤ cutoff.month
  · rw [if_pos hm, addYears_april, dle_iff]
    dsimp only
    omega
  · rw [if_neg hm, addYears_april, dle_iff]
    dsimp only
    omega

theorem cutoff_lt_fyEnd (cutoff : Date) (h : cutoff.valid) :
    dlt cutoff (addYears (currentFyStart cutoff) 1) = true := by
  obtain ⟨h1, h2, h3, h4⟩ := h
  unfold currentFyStart
  by_cases hm : 4 ≤ cutoff.month
  · rw [if_pos hm, addYears_april, dlt_iff]
    dsimp only
    omega
  · rw [if_neg hm, addYears_april, dlt_iff]
    dsimp only
    omega

theorem nextDay_le_fyEnd (cutoff : Date) (h : cutoff.valid) :
    dle (nextDay cutoff) (addYears (currentFyStart cutoff) 1) = true := by
  obtain ⟨h1, h2, h3, h4⟩ := h
  unfold nextDay currentFyStart
  split_ifs <;> rw [addYears_april, dle_iff] <;> dsimp only <;> omega

theorem dlt_nextDay (cutoff : Date) (h : cutoff.valid) :
    dlt cutoff (nextDay cutoff) = true := by
  obtain ⟨h1, h2, h3, h4⟩ := h
  unfold nextDay
  split_ifs <;> rw [dlt_iff] <;> dsimp only <;> omega

theorem windowMonths_eq_spec (ys ye : Date) :
    windowMonthsCovered ys ye = specMonthsCovered ys ye := by
  unfold windowMonthsCovered specMonthsCovered
  split_ifs <;> omega

/-- C4: for every valid cutoff date the attrition queries produce exactly four
fiscal windows — the April-to-March years opening `currentFyStart.year - 3`
through `currentFyStart.year` — the cutoff falls inside the last window and
that window's end is clamped to `cutoff + 1 day`, the earlier windows keep
their full fiscal year end, `months_covered` is the spec's clamped
rounded-up month span, labels follow the "YTD FY"/"FY" + two-digit-ending-year
rule, and in particular for cutoff 2024-07-10 the most recent window is
(2024-04-01, 2024-07-11, fiscal end 2025-04-01, 4 months, "YTD FY25"). -/
theorem c4_fiscal_windows (cutoff : Date) (h : cutoff.valid) :
    (fiscalWindows cutoff).length = 4 ∧
    fiscalWindows cutoff =
      [fiscalWindow cutoff (-3), fiscalWindow cutoff (-2),
        fiscalWindow cutoff (-1), fiscalWindow cutoff 0] ∧
    (∀ k : Int, -3 ≤ k → k ≤ 0 →
      (fiscalWindow cutoff k).yearStart =
          ⟨(currentFyStart cutoff).year + k, 4, 1⟩ ∧
        (fiscalWindow cutoff k).fyYearEnd =
          ⟨(currentFyStart cutoff).year + k + 1, 4, 1⟩) ∧
    dle (fiscalWindow cutoff 0).yearStart cutoff = true ∧
    dlt cutoff (fiscalWindow cutoff 0).fyYearEnd = true ∧
    (fiscalWindow cutoff 0).yearEnd = nextDay cutoff ∧
    (∀ k : Int, -3 ≤ k → k ≤ -1 →
      (fiscalWindow cutoff k).yearEnd = (fiscalWindow cutoff k).fyYearEnd) ∧
    (∀ w ∈ fiscalWindows cutoff,
      w.months_covered = specMonthsCovered w.yearStart w.yearEnd ∧
        w.label =
          (if dlt w.yearEnd w.fyYearEnd then "YTD FY" else "FY") ++
            twoDigitYear w.fyYearEnd.year) ∧
    fiscalWindow ⟨2024, 7, 10⟩ 0 =
      ⟨⟨2024, 4, 1⟩, ⟨2024, 7, 11⟩, ⟨2025, 4, 1⟩, 4, "YTD FY25"⟩ := by
  have hp : currentFyStart cutoff =
      (⟨(currentFyStart cutoff).year, 4, 1⟩ : Date) := by
    unfold currentFyStart
    split_ifs <;> rfl
  refine ⟨rfl, rfl, ?_, ?_, ?_, ?_, ?_, ?_, ?_⟩
  · intro k hk1 hk2
    constructor
    · show addYears (currentFyStart cutoff) k = _
      rw [hp, addYears_april]
    · show addYears (currentFyStart cutoff) (k + 1) = _
      rw [hp, addYears_april]
      show (⟨(currentFyStart cutoff).year + (k + 1), 4, 1⟩ : Date) =
        ⟨(currentFyStart cutoff).year + k + 1, 4, 1⟩
      rw [show (currentFyStart cutoff).year + (k + 1) =
        (currentFyStart cutoff).year + k + 1 from by omega]
  · show dle (addYears (currentFyStart cutoff) 0) cutoff = true
    exact fy_window_start_le_cutoff cutoff h 0 le_rfl
  · show dlt cutoff (addYears (currentFyStart cutoff) (0 + 1)) = true
    exact cutoff_lt_fyEnd cutoff h
  · show minDate (addYears (currentFyStart cutoff) (0 + 1))
        (nextDay cutoff) = nextDay cutoff
    exact minDate_eq_right (nextDay_le_fyEnd cutoff h)
  · intro k hk1 hk2
    show minDate (addYears (currentFyStart cutoff) (k + 1))
        (nextDay cutoff) = addYears (currentFyStart cutoff) (k + 1)
    refine minDate_eq_left (dle_of_dlt (dlt_of_dle_of_dlt ?_
      (dlt_nextDay cutoff h)))
    exact fy_window_start_le_cutoff cutoff h (k + 1) (by omega)
  · intro w hw
    have hmc : ∀ k : Int, (fiscalWindow cutoff k).months_covered =
        specMonthsCovered (fiscalWindow cutoff k).yearStart
          (fiscalWindow cutoff k).yearEnd := by
      intro k
      exact windowMonths_eq_spec _ _
    have hlb : ∀ ye fye : Date, fyLabel ye fye =
        (if dlt ye fye then "YTD FY" else "FY") ++ twoDigitYear fye.year := by
      intro ye fye
      unfold fyLabel
      split_ifs <;> rfl
    simp only [fiscalWindows, List.mem_cons, List.not_mem_nil, or_false]
      at hw
    rcases hw with hw | hw | hw | hw <;> rw [hw] <;>
      exact ⟨hmc _, hlb _ _⟩
  · decide

/-- Witness for C4 at the valid cutoff 2024-07-10. -/
theorem c4_fiscal_windows_witness :
    (Date.valid ⟨2024, 7, 10⟩) ∧
      (fiscalWindows ⟨2024, 7, 10⟩).length = 4 ∧
      (fiscalWindow ⟨2024, 7, 10⟩ 0).yearEnd = nextDay ⟨2024, 7, 10⟩ ∧
      fiscalWindow ⟨2024, 7, 10⟩ 0 =
        ⟨⟨2024, 4, 1⟩, ⟨2024, 7, 11⟩, ⟨2025, 4, 1⟩, 4, "YTD FY25"⟩ := by
  have h : Date.valid ⟨2024, 7, 10⟩ := by decide
  have hc := c4_fiscal_windows ⟨2024, 7, 10⟩ h
  exact ⟨h, hc.1, hc.2.2.2.2.2.1, hc.2.2.2.2.2.2.2.2⟩

/-! ## Headcount ramp series (C5)

`_build_manpower_sql` builds, over granularity-floored bounds `S`
(`start_period`) and `E` (`end_period`) and the granularity step `W`:

* `series`: `generate_series(S - W, E, W)` — one synthetic pre-window bucket
  plus one bucket per step through `E` inclusive;
* `actuals`: per point, the `latest` headcount of that bucket (the correlated
  subquery, kept abstract here as a function `hc` of the period start);
* `enriched`: `LAG(headcount) OVER (ORDER BY period_start)`;
* the final select keeps `period_start >= S` and computes
  `opening_headcount = COALESCE(lag, 0)`,
  `ramp_change = headcount - COALESCE(lag, 0)` and
  `ramp_pct = 0` when the opening is 0 (or NULL), else
  `(headcount - opening)::float / opening`.

Timestamps are modelled as integers with the step `W` acting as a uniform
translation (for the monthly grain, e.g., the month index); the per-bucket
headcount is an arbitrary function of the bucket start, so the theorem holds
whatever the underlying roster is. -/

/-- Fuel-driven loop of `generate_series(a, b, step)` for a positive step:
emit `a` and continue from `a + step` while `a ≤ b`.  The fuel only bounds
the iteration count; `genSeries` supplies enough for any `step ≥ 1`. -/
def genSeriesAux (fuel : Nat) (a b step : Int) : List Int :=
  match fuel with
  | 0 => []
  | fuel + 1 =>
    if 1 ≤ step ∧ a ≤ b then a :: genSeriesAux fuel (a + step) b step else []

/-- PostgreSQL `generate_series(a, b, step)` for a positive step. -/
def genSeries (a b step : Int) : List Int :=
  genSeriesAux ((b - a).toNat + 1) a b step

/-- SQL `LAG(headcount) OVER (ORDER BY period_start)` on an already-ordered
list of `(period_start, headcount)` pairs: each element is paired with the
previous element's headcount (`none` for the first row). -/
def withLag : List (Int × Int) → Option Int → List (Int × Int × Option Int)
  | [], _ => []
  | (t, h) :: rest, prev => (t, h, prev) :: withLag rest (some h)

/-- One output row of `_build_manpower_sql`. -/
structure RampPoint where
  period_start : Int
  headcount : Int
  opening_headcount : Int
  ramp_change : Int
  ramp_pct : ℚ
deriving DecidableEq, Repr

/-- The final `SELECT` of `_build_manpower_sql` on one enriched row
`(period_start, headcount, lagged headcount)`: `COALESCE` the lag to 0 for
the opening headcount and the ramp change, and emit ramp percentage 0 when
the (coalesced) opening is 0, else the float division. -/
def rampFinalize (x : Int × Int × Option Int) : RampPoint where
  period_start := x.1
  headcount := x.2.1
  opening_headcount := x.2.2.getD 0
  ramp_change := x.2.1 - x.2.2.getD 0
  ramp_pct :=
    if x.2.2.getD 0 = 0 then 0
    else ((x.2.1 - x.2.2.getD 0 : Int) : ℚ) / ((x.2.2.getD 0 : Int) : ℚ)

/-- The full `_build_manpower_sql` pipeline over window `[S, E]`, step `W`
and per-bucket headcount `hc`. -/
def manpowerSeries (S E W : Int) (hc : Int → Int) : List RampPoint :=
  ((withLag ((genSeries (S - W) E W).map (fun t => (t, hc t))) none).filter
    (fun x => decide (S ≤ x.1))).map rampFinalize

theorem genSeriesAux_nil (fuel : Nat) (a b step : Int) (h : b < a) :
    genSeriesAux fuel a b step = [] := by
  cases fuel with
  | zero => rfl
  | succ m =>
    unfold genSeriesAux
    rw [if_neg (by omega)]

theorem genSeriesAux_closed {W : Int} (hW : 1 ≤ W) :
    ∀ (n : Nat) (fuel : Nat) (a : Int), n + 1 ≤ fuel →
      genSeriesAux fuel a (a + W * (n : Int)) W =
        (List.range (n + 1)).map (fun k : Nat => a + W * (k : Int)) := by
  intro n
  induction n with
  | zero =>
    intro fuel a hf
    match fuel, hf with
    | fuel + 1, _ =>
      unfold genSeriesAux
      rw [if_pos ⟨hW, by simp⟩]
      rw [genSeriesAux_nil fuel (a + W) (a + W * ((0 : Nat) : Int)) W (by
        push_cast
        omega)]
      simp [List.range_succ]
  | succ m ih =>
    intro fuel a hf
    match fuel, hf with
    | fuel + 1, hf =>
      unfold genSeriesAux
      have hnn : (0 : Int) ≤ W * ((m : Int) + 1) :=
        mul_nonneg (by omega) (by positivity)
      rw [if_pos ⟨hW, by push_cast; omega⟩]
      have hb : a + W * ((m + 1 : Nat) : Int) = (a + W) + W * ((m : Nat) : Int) := by
        push_cast
        ring
      rw [hb, ih fuel (a + W) (by omega)]
      conv_rhs => rw [List.range_succ_eq_map]
      simp only [List.map_cons, List.map_map, Function.comp, List.cons.injEq]
      refine ⟨by norm_num, ?_⟩
      apply List.map_congr_left
      intro k _
      simp only [Function.comp_apply]
      push_cast
      ring

theorem withLag_map :
    ∀ (m : Nat) (f g : Nat → Int) (prev : Option Int),
      withLag ((List.range m).map (fun k : Nat => (f k, g k))) prev =
        (List.range m).map
          (fun k : Nat =>
            (f k, g k, if k = 0 then prev else some (g (k - 1)))) := by
  intro m
  induction m with
  | zero =>
    intro f g prev
    rfl
  | succ m ih =>
    intro f g prev
    rw [List.range_succ_eq_map]
    simp only [List.map_cons, List.map_map, Function.comp]
    show (f 0, g 0, prev) ::
        withLag ((List.range m).map (fun k : Nat => (f (k + 1), g (k + 1))))
          (some (g 0)) = _
    rw [ih (fun k => f (k + 1)) (fun k => g (k + 1)) (some (g 0))]
    simp only [List.cons.injEq]
    refine ⟨by simp, ?_⟩
    apply List.map_congr_left
    intro k _
    cases k with
    | zero => simp
    | succ j => simp

/-- C5: for every window start `S`, positive step `W`, bucket count `n + 1`
and per-bucket headcount function `hc`, the manpower query returns exactly one
point per bucket from `S` through the window end `S + W*n` inclusive; each
point's opening headcount is the headcount of the immediately preceding
bucket (the synthetic pre-window bucket only feeds the first point's
opening), `ramp_change = headcount - opening_headcount`, and `ramp_pct` is
`ramp_change / opening_headcount` with value 0 — not an error — whenever the
opening headcount is 0. -/
theorem c5_manpower_series (S W : Int) (hc : Int → Int) (n : Nat)
    (hW : 1 ≤ W) :
    manpowerSeries S (S + W * (n : Int)) W hc =
      (List.range (n + 1)).map (fun k : Nat =>
        { period_start := S + W * (k : Int)
          headcount := hc (S + W * (k : Int))
          opening_headcount := hc (S + W * (k : Int) - W)
          ramp_change := hc (S + W * (k : Int)) - hc (S + W * (k : Int) - W)
          ramp_pct := if hc (S + W * (k : Int) - W) = 0 then 0
            else ((hc (S + W * (k : Int)) - hc (S + W * (k : Int) - W) :
                Int) : ℚ) /
              ((hc (S + W * (k : Int) - W) : Int) : ℚ) : RampPoint }) := by
  have hgen : genSeries (S - W) (S + W * (n : Int)) W =
      (List.range (n + 1 + 1)).map (fun k : Nat => S - W + W * (k : Int)) := by
    have hb : S + W * (n : Int) = (S - W) + W * ((n + 1 : Nat) : Int) := by
      push_cast
      ring
    rw [hb]
    unfold genSeries
    have hmul : ((n : Int) + 1) ≤ W * ((n : Int) + 1) := by
      have h0 : (0 : Int) ≤ (n : Int) + 1 := by positivity
      nlinarith
    exact genSeriesAux_closed hW (n + 1) _ (S - W) (by push_cast; omega)
  unfold manpowerSeries
  rw [hgen, List.map_map]
  have hcomp : ((fun t : Int => (t, hc t)) ∘ fun k : Nat => S - W + W * (k : Int)) =
      fun k : Nat => (S - W + W * (k : Int), hc (S - W + W * (k : Int))) := by
    funext k
    rfl
  rw [hcomp]
  have hwl := withLag_map (n + 1 + 1) (fun k : Nat => S - W + W * (k : Int))
    (fun k : Nat => hc (S - W + W * (k : Int))) none
  beta_reduce at hwl
  rw [hwl]
  rw [List.filter_map, List.range_succ_eq_map, List.filter_cons]
  rw [if_neg (by
    simp only [Function.comp_apply, decide_eq_true_eq, Nat.cast_zero,
      mul_zero, add_zero]
    omega)]
  rw [List.filter_map]
  have hkeep : List.filter
      (((fun x : Int × Int × Option Int => decide (S ≤ x.1)) ∘
        (fun k : Nat => (S - W + W * (k : Int), hc (S - W + W * (k : Int)),
          if k = 0 then none
          else some (hc (S - W + W * ((k - 1 : Nat) : Int)))))) ∘ Nat.succ)
      (List.range (n + 1)) = List.range (n + 1) := by
    rw [List.filter_eq_self]
    intro k _
    simp only [Function.comp_apply, decide_eq_true_eq]
    have hnn : (0 : Int) ≤ W * (k : Int) :=
      mul_nonneg (by omega) (by positivity)
    push_cast
    rw [mul_add, mul_one]
    omega
  rw [hkeep, List.map_map, List.map_map]
  apply List.map_congr_left
  intro k _
  simp only [Function.comp, Nat.succ_ne_zero, reduceIte, Nat.succ_sub_one,
    Option.getD_some]
  rw [show S - W + W * ((k + 1 : Nat) : Int) = S + W * (k : Int) from by
    push_cast; ring]
  rw [show S - W + W * ((k : Nat) : Int) = S + W * (k : Int) - W from by
    ring]
  rfl

/-- A concrete per-bucket headcount for the C5 witness. -/
def sampleHc : Int → Int := fun t => if 1 ≤ t then 2 else 1

/-- Witness for C5 at S = 0, W = 1, three buckets (n = 2), headcount 1 for
buckets before 1 and 2 afterwards. -/
theorem c5_manpower_series_witness :
    (1 ≤ (1 : Int)) ∧
      manpowerSeries 0 (0 + 1 * ((2 : Nat) : Int)) 1 sampleHc =
        (List.range (2 + 1)).map (fun k : Nat =>
          { period_start := 0 + 1 * (k : Int)
            headcount := sampleHc (0 + 1 * (k : Int))
            opening_headcount := sampleHc (0 + 1 * (k : Int) - 1)
            ramp_change := sampleHc (0 + 1 * (k : Int)) -
              sampleHc (0 + 1 * (k : Int) - 1)
            ramp_pct := if sampleHc (0 + 1 * (k : Int) - 1) = 0 then 0
              else ((sampleHc (0 + 1 * (k : Int)) -
                  sampleHc (0 + 1 * (k : Int) - 1) : Int) : ℚ) /
                ((sampleHc (0 + 1 * (k : Int) - 1) : Int) : ℚ) :
            RampPoint }) :=
  ⟨by decide, c5_manpower_series 0 1 sampleHc 2 (by decide)⟩

/-! ## Identity resolution (C1)

The `ranked` CTE of `_build_snapshot_cte` partitions the scope's
`employee_dashboard_master` rows (joined to their `Upload`) by

    COALESCE(ed."New Emp ID", ed."Emp ID", ed.id::text)

ordered by `u."uploadedAt" DESC, ed.id DESC`, and `latest` keeps the rows
with `ROW_NUMBER() = 1`; `joined_first` does the same over the rows with a
non-null DOJ, ordered by `ed."DOJ" ASC NULLS LAST, ed.id ASC`, giving
`earliest_join`.  A row has row number 1 exactly when no row of its partition
sorts strictly before it; with pairwise-distinct row ids both orders are
total, so that characterization is exact.  The organization / month filters
only restrict the input rows, so the embedding takes the scoped row list as
its input. -/

/-- One scoped row: an `employee_dashboard_master` record joined to its
Upload's `uploadedAt`. -/
structure SnapRow where
  id : Int
  uploadedAt : Int
  newEmpId : Option String
  empId : Option String
  doj : Option Date
deriving DecidableEq, Repr

/-- `COALESCE(ed."New Emp ID", ed."Emp ID", ed.id::text)`. -/
def identityKey (r : SnapRow) : String :=
  match r.newEmpId with
  | some key => key
  | none =>
    match r.empId with
    | some key => key
    | none => toString r.id

/-- `a` sorts strictly before `b` under
`ORDER BY u."uploadedAt" DESC, ed.id DESC`. -/
def rankedBefore (a b : SnapRow) : Bool :=
  b.uploadedAt < a.uploadedAt ||
    (a.uploadedAt == b.uploadedAt && b.id < a.id)

/-- `x` sorts strictly before `y` under `"DOJ" ASC NULLS LAST`. -/
def dojBefore : Option Date → Option Date → Bool
  | some da, some db => dlt da db
  | some _, none => true
  | none, some _ => false
  | none, none => false

/-- `x` ties with `y` under `"DOJ" ASC NULLS LAST`. -/
def dojEquiv : Option Date → Option Date → Bool
  | some da, some db => da == db
  | none, none => true
  | _, _ => false

/-- `a` sorts strictly before `b` under
`ORDER BY ed."DOJ" ASC NULLS LAST, ed.id ASC`. -/
def joinedBefore (a b : SnapRow) : Bool :=
  dojBefore a.doj b.doj || (dojEquiv a.doj b.doj && a.id < b.id)

/-- The `latest` CTE: the scoped rows whose partition (by identity key) holds
no row sorting strictly before them under the upload-recency order. -/
def latest (rows : List SnapRow) : List SnapRow :=
  rows.filter (fun r =>
    rows.all (fun s => !(identityKey s == identityKey r && rankedBefore s r)))

/-- The `earliest_join` CTE: among the scoped rows with non-null DOJ, those
whose partition holds no row sorting strictly before them under the
DOJ order. -/
def earliest_join (rows : List SnapRow) : List SnapRow :=
  (rows.filter (fun r => r.doj.isSome)).filter (fun r =>
    (rows.filter (fun r => r.doj.isSome)).all
      (fun s => !(identityKey s == identityKey r && joinedBefore s r)))

theorem dlt_trans' {a b c : Date} (h1 : dlt a b = true)
    (h2 : dlt b c = true) : dlt a c = true := by
  rw [dlt_iff] at h1 h2 ⊢
  omega

theorem dlt_irrefl' (a : Date) : dlt a a = false := by
  cases hv : dlt a a with
  | false => rfl
  | true =>
    exfalso
    rw [dlt_iff] at hv
    omega

theorem dlt_asymm' {a b : Date} (h : dlt a b = true) : dlt b a = false := by
  cases hv : dlt b a with
  | false => rfl
  | true =>
    exfalso
    rw [dlt_iff] at h hv
    omega

theorem dlt_connex {a b : Date} (h : a ≠ b) :
    dlt a b = true ∨ dlt b a = true := by
  rw [dlt_iff, dlt_iff]
  by_cases hy : a.year = b.year
  · by_cases hm : a.month = b.month
    · by_cases hd : a.day = b.day
      · exact absurd (Date.ext hy hm hd) h
      · omega
    · omega
  · omega

theorem rankedBefore_trans (a b c : SnapRow) (h1 : rankedBefore a b = true)
    (h2 : rankedBefore b c = true) : rankedBefore a c = true := by
  simp only [rankedBefore, Bool.or_eq_true, Bool.and_eq_true,
    decide_eq_true_eq, beq_iff_eq] at h1 h2 ⊢
  omega

theorem rankedBefore_asymm (a b : SnapRow) (h : rankedBefore a b = true) :
    rankedBefore b a = false := by
  cases hv : rankedBefore b a with
  | false => rfl
  | true =>
    exfalso
    simp only [rankedBefore, Bool.or_eq_true, Bool.and_eq_true,
      decide_eq_true_eq, beq_iff_eq] at h hv
    omega

theorem rankedBefore_irrefl (a : SnapRow) : rankedBefore a a = false := by
  cases hv : rankedBefore a a with
  | false => rfl
  | true =>
    exfalso
    simp only [rankedBefore, Bool.or_eq_true, Bool.and_eq_true,
      decide_eq_true_eq, beq_iff_eq] at hv
    omega

theorem rankedBefore_total (a b : SnapRow) (h : a.id ≠ b.id) :
    rankedBefore a b = true ∨ rankedBefore b a = true := by
  simp only [rankedBefore, Bool.or_eq_true, Bool.and_eq_true,
    decide_eq_true_eq, beq_iff_eq]
  omega

theorem joinedBefore_trans (a b c : SnapRow) (h1 : joinedBefore a b = true)
    (h2 : joinedBefore b c = true) : joinedBefore a c = true := by
  simp only [joinedBefore, Bool.or_eq_true, Bool.and_eq_true,
    decide_eq_true_eq] at h1 h2 ⊢
  rcases hda : a.doj with _ | da <;> rcases hdb : b.doj with _ | db <;>
    rcases hdc : c.doj with _ | dc <;>
    rw [hda, hdb] at h1 <;> rw [hdb, hdc] at h2 <;>
    simp only [dojBefore, dojEquiv, Bool.false_eq_true, eq_self_iff_true,
      false_and, true_and, and_true, or_false, false_or, true_or,
      beq_iff_eq] at h1 h2 ⊢
  · omega
  · rcases h1 with h1 | ⟨h1e, h1i⟩ <;> rcases h2 with h2 | ⟨h2e, h2i⟩
    · exact Or.inl (dlt_trans' h1 h2)
    · subst h2e
      exact Or.inl h1
    · subst h1e
      exact Or.inl h2
    · subst h1e
      subst h2e
      exact Or.inr ⟨rfl, by omega⟩

theorem joinedBefore_asymm (a b : SnapRow) (h : joinedBefore a b = true) :
    joinedBefore b a = false := by
  cases hv : joinedBefore b a with
  | false => rfl
  | true =>
    exfalso
    simp only [joinedBefore, Bool.or_eq_true, Bool.and_eq_true,
      decide_eq_true_eq] at h hv
    rcases hda : a.doj with _ | da <;> rcases hdb : b.doj with _ | db <;>
      rw [hda, hdb] at h hv <;>
      simp only [dojBefore, dojEquiv, Bool.false_eq_true, eq_self_iff_true,
        false_and, true_and, and_true, or_false, false_or, true_or,
        beq_iff_eq] at h hv
    · omega
    · rcases h with h | ⟨he, hi⟩
      · rcases hv with hv | ⟨hve, hvi⟩
        · rw [dlt_asymm' h] at hv
          exact Bool.false_ne_true hv
        · subst hve
          rw [dlt_irrefl'] at h
          exact Bool.false_ne_true h
      · subst he
        rcases hv with hv | ⟨hve, hvi⟩
        · rw [dlt_irrefl'] at hv
          exact Bool.false_ne_true hv
        · omega

theorem joinedBefore_irrefl (a : SnapRow) : joinedBefore a a = false := by
  cases hv : joinedBefore a a with
  | false => rfl
  | true =>
    exfalso
    simp only [joinedBefore, Bool.or_eq_true, Bool.and_eq_true,
      decide_eq_true_eq] at hv
    rcases hda : a.doj with _ | da <;> rw [hda] at hv <;>
      simp only [dojBefore, dojEquiv, Bool.false_eq_true, eq_self_iff_true,
        false_and, true_and, and_true, or_false, false_or, true_or,
        beq_iff_eq] at hv
    · omega
    · rcases hv with hv | hv
      · rw [dlt_irrefl'] at hv
        exact Bool.false_ne_true hv
      · omega

theorem joinedBefore_total (a b : SnapRow) (h : a.id ≠ b.id) :
    joinedBefore a b = true ∨ joinedBefore b a = true := by
  simp only [joinedBefore, Bool.or_eq_true, Bool.and_eq_true,
    decide_eq_true_eq]
  rcases hda : a.doj with _ | da <;> rcases hdb : b.doj with _ | db <;>
    simp only [dojBefore, dojEquiv, Bool.false_eq_true, eq_self_iff_true,
      false_and, true_and, and_true, or_false, false_or, true_or,
      beq_iff_eq]
  · omega
  · by_cases hdd : da = db
    · subst hdd
      rcases lt_or_gt_of_ne h with hlt | hlt
      · exact Or.inl (Or.inr ⟨rfl, hlt⟩)
      · exact Or.inr (Or.inr ⟨rfl, hlt⟩)
    · rcases dlt_connex hdd with hlt | hlt
      · exact Or.inl (Or.inl hlt)
      · exact Or.inr (Or.inl hlt)

theorem exists_min_elem {α : Type} (ord : α → α → Bool)
    (htrans : ∀ a b c : α, ord a b = true → ord b c = true →
      ord a c = true) :
    ∀ l : List α,
      (∀ a b, a ∈ l → b ∈ l → a ≠ b → ord a b = true ∨ ord b a = true) →
      l ≠ [] →
      ∃ m, m ∈ l ∧ ∀ s, s ∈ l → s ≠ m → ord m s = true := by
  intro l
  induction l with
  | nil =>
    intro _ h
    exact absurd rfl h
  | cons a t ih =>
    intro htotal _
    by_cases ht : t = []
    · subst ht
      refine ⟨a, by simp, ?_⟩
      intro s hs hne
      simp only [List.mem_singleton] at hs
      exact absurd hs hne
    · obtain ⟨m, hm, hmin⟩ := ih
        (fun x y hx hy =>
          htotal x y (List.mem_cons_of_mem a hx) (List.mem_cons_of_mem a hy))
        ht
      by_cases hma : a = m
      · subst hma
        refine ⟨a, List.mem_cons_self a t, ?_⟩
        intro s hs hne
        rcases List.mem_cons.mp hs with rfl | hst
        · exact absurd rfl hne
        · exact hmin s hst hne
      · rcases htotal a m (List.mem_cons_self a t)
          (List.mem_cons_of_mem a hm) hma with hord | hord
        · refine ⟨a, List.mem_cons_self a t, ?_⟩
          intro s hs hne
          rcases List.mem_cons.mp hs with rfl | hst
          · exact absurd rfl hne
          · by_cases hsm : s = m
            · subst hsm
              exact hord
            · exact htrans a m s hord (hmin s hst hsm)
        · refine ⟨m, List.mem_cons_of_mem a hm, ?_⟩
          intro s hs hne
          rcases List.mem_cons.mp hs with rfl | hst
          · exact hord
          · exact hmin s hst hne

theorem filter_eq_single {α : Type} (p : α → Bool) (m : α) :
    ∀ l : List α, l.Nodup → m ∈ l → p m = true →
      (∀ s, s ∈ l → s ≠ m → p s = false) → l.filter p = [m] := by
  intro l
  induction l with
  | nil =>
    intro _ hm
    cases hm
  | cons a t ih =>
    intro hnd hm hpm ho
    rcases List.mem_cons.mp hm with rfl | hmt
    · rw [List.filter_cons_of_pos hpm]
      have hnil : t.filter p = [] := by
        rw [List.filter_eq_nil_iff]
        intro s hs
        have hne : s ≠ m := fun he => (List.nodup_cons.mp hnd).1 (he ▸ hs)
        simp [ho s (List.mem_cons_of_mem m hs) hne]
      rw [hnil]
    · have hna : a ≠ m := fun he => (List.nodup_cons.mp hnd).1 (he ▸ hmt)
      rw [List.filter_cons_of_neg
        (by simp [ho a (List.mem_cons_self a t) hna])]
      exact ih (List.nodup_cons.mp hnd).2 hmt hpm
        (fun s hs hne => ho s (List.mem_cons_of_mem a hs) hne)

/-- Generic form of the "`ROW_NUMBER() = 1` keeps exactly the partition's
sort-order minimum" argument, for any strict order `ord` that is transitive,
asymmetric, irreflexive and total on rows with distinct ids. -/
theorem rank_one_unique {ord : SnapRow → SnapRow → Bool}
    (htrans : ∀ a b c : SnapRow,
      ord a b = true → ord b c = true → ord a c = true)
    (hasym : ∀ a b : SnapRow, ord a b = true → ord b a = false)
    (hirr : ∀ a : SnapRow, ord a a = false)
    (htot : ∀ a b : SnapRow,
      a.id ≠ b.id → ord a b = true ∨ ord b a = true)
    (rows : List SnapRow) (hids : (rows.map SnapRow.id).Nodup)
    (k : String) (hk : ∃ r, r ∈ rows ∧ identityKey r = k) :
    ∃ m, m ∈ rows ∧ identityKey m = k ∧
      ((rows.filter (fun r =>
          rows.all (fun s =>
            !(identityKey s == identityKey r && ord s r)))).filter
        (fun r => identityKey r == k)) = [m] ∧
      ∀ s, s ∈ rows → identityKey s = k → s ≠ m → ord m s = true := by
  have hinj : ∀ x, x ∈ rows → ∀ y, y ∈ rows → x.id = y.id → x = y := by
    intro x hx y hy hxy
    exact List.inj_on_of_nodup_map hids hx hy hxy
  have hnd : rows.Nodup := List.Nodup.of_map _ hids
  obtain ⟨r0, hr0, hr0k⟩ := hk
  set P := rows.filter (fun s => identityKey s == k) with hP
  have hmemP : ∀ s, s ∈ P ↔ (s ∈ rows ∧ identityKey s = k) := by
    intro s
    rw [hP, List.mem_filter]
    simp [beq_iff_eq]
  have hPne : P ≠ [] := by
    intro hnil
    have : r0 ∈ P := (hmemP r0).mpr ⟨hr0, hr0k⟩
    rw [hnil] at this
    cases this
  obtain ⟨m, hmP, hmin⟩ := exists_min_elem ord htrans P
    (by
      intro x y hx hy hxy
      have hx' := (hmemP x).mp hx
      have hy' := (hmemP y).mp hy
      refine htot x y ?_
      intro hid
      exact hxy (hinj x hx'.1 y hy'.1 hid))
    hPne
  have hm_rows : m ∈ rows := ((hmemP m).mp hmP).1
  have hmk : identityKey m = k := ((hmemP m).mp hmP).2
  have hdom : ∀ s, s ∈ rows → identityKey s = k → s ≠ m → ord m s = true := by
    intro s hs hsk hsm
    exact hmin s ((hmemP s).mpr ⟨hs, hsk⟩) hsm
  refine ⟨m, hm_rows, hmk, ?_, hdom⟩
  have hsurv_m : rows.all (fun s =>
      !(identityKey s == identityKey m && ord s m)) = true := by
    rw [List.all_eq_true]
    intro s hs
    cases hks : identityKey s == identityKey m with
    | false => simp [hks]
    | true =>
      have hk2 : identityKey s = k := by
        rw [eq_of_beq hks, hmk]
      by_cases hsm : s = m
      · subst hsm
        simp [hirr]
      · have hmb := hdom s hs hk2 hsm
        simp [hasym s m, hasym m s hmb]
  have hsurv_other : ∀ r, r ∈ rows → identityKey r = k → r ≠ m →
      rows.all (fun s =>
        !(identityKey s == identityKey r && ord s r)) = false := by
    intro r hr hrk hrm
    cases hall : rows.all (fun s =>
        !(identityKey s == identityKey r && ord s r)) with
    | false => rfl
    | true =>
      exfalso
      rw [List.all_eq_true] at hall
      have hthis := hall m hm_rows
      have hmr : ord m r = true := hdom r hr hrk hrm
      have hbeq : (identityKey m == identityKey r) = true := by
        rw [hmk, hrk]
        exact beq_self_eq_true k
      rw [hbeq, hmr] at hthis
      simp at hthis
  rw [List.filter_filter]
  refine filter_eq_single _ m rows hnd hm_rows ?_ ?_
  · rw [Bool.and_eq_true]
    constructor
    · rw [hmk]
      exact beq_self_eq_true k
    · exact hsurv_m
  · intro s hs hsm
    cases hks : identityKey s == k with
    | false => simp [hks]
    | true =>
      have hsk : identityKey s = k := eq_of_beq hks
      simp [hks]
      exact ⟨m, hm_rows, by rw [hmk, hsk], hdom s hs hsk hsm⟩

/-- C1: over any scoped row set with pairwise-distinct row ids and any
resolved identity key present in it, `latest` holds exactly one row of that
identity — the one every other row of the identity loses to under
(`uploadedAt` descending, id descending), i.e. the greatest-`uploadedAt` row
with ties broken by greatest id — and, among the identity's rows with
non-null DOJ, `earliest_join` holds exactly one row — the one every other
such row loses to under (DOJ ascending, id ascending), i.e. the lowest-DOJ
row with ties broken by lowest id. -/
theorem c1_identity_dedup (rows : List SnapRow)
    (hids : (rows.map SnapRow.id).Nodup) (k : String) :
    ((∃ r, r ∈ rows ∧ identityKey r = k) →
      ∃ m, m ∈ rows ∧ identityKey m = k ∧
        (latest rows).filter (fun r => identityKey r == k) = [m] ∧
        ∀ s, s ∈ rows → identityKey s = k → s ≠ m →
          rankedBefore m s = true) ∧
    ((∃ r, r ∈ rows ∧ identityKey r = k ∧ r.doj.isSome = true) →
      ∃ m, m ∈ rows ∧ identityKey m = k ∧ m.doj.isSome = true ∧
        (earliest_join rows).filter (fun r => identityKey r == k) = [m] ∧
        ∀ s, s ∈ rows → identityKey s = k → s.doj.isSome = true → s ≠ m →
          joinedBefore m s = true) := by
  constructor
  · intro hk
    obtain ⟨m, h1, h2, h3, h4⟩ := rank_one_unique rankedBefore_trans
      rankedBefore_asymm rankedBefore_irrefl rankedBefore_total
      rows hids k hk
    exact ⟨m, h1, h2, h3, h4⟩
  · intro hk
    obtain ⟨r, hr, hrk, hrd⟩ := hk
    have hids' : ((rows.filter (fun t => t.doj.isSome)).map
        SnapRow.id).Nodup := by
      refine List.Nodup.sublist ?_ hids
      exact List.Sublist.map _ (List.filter_sublist rows)
    have hmem' : ∀ s, s ∈ rows.filter (fun t => t.doj.isSome) ↔
        (s ∈ rows ∧ s.doj.isSome = true) := by
      intro s
      rw [List.mem_filter]
    obtain ⟨m, h1, h2, h3, h4⟩ := rank_one_unique joinedBefore_trans
      joinedBefore_asymm joinedBefore_irrefl joinedBefore_total
      (rows.filter (fun t => t.doj.isSome)) hids' k
      ⟨r, (hmem' r).mpr ⟨hr, hrd⟩, hrk⟩
    have hm' := (hmem' m).mp h1
    refine ⟨m, hm'.1, h2, hm'.2, h3, ?_⟩
    intro s hs hsk hsd hsm
    exact h4 s ((hmem' s).mpr ⟨hs, hsd⟩) hsk hsm

/-- Two snapshot rows of the same person ("E1") across two uploads, for the
C1 witness: row 2 is from the more recent upload, row 1 has the earlier
DOJ. -/
def c1Rows : List SnapRow :=
  [⟨1, 10, some "E1", none, some ⟨2020, 1, 1⟩⟩,
    ⟨2, 20, some "E1", none, some ⟨2021, 5, 5⟩⟩]

/-- Witness for C1 on `c1Rows` and key "E1". -/
theorem c1_identity_dedup_witness :
    ((c1Rows.map SnapRow.id).Nodup) ∧
    (∃ m, m ∈ c1Rows ∧ identityKey m = "E1" ∧
      (latest c1Rows).filter (fun r => identityKey r == "E1") = [m] ∧
      ∀ s, s ∈ c1Rows → identityKey s = "E1" → s ≠ m →
        rankedBefore m s = true) ∧
    (∃ m, m ∈ c1Rows ∧ identityKey m = "E1" ∧ m.doj.isSome = true ∧
      (earliest_join c1Rows).filter (fun r => identityKey r == "E1") = [m] ∧
      ∀ s, s ∈ c1Rows → identityKey s = "E1" → s.doj.isSome = true → s ≠ m →
        joinedBefore m s = true) := by
  have hids : (c1Rows.map SnapRow.id).Nodup := by decide
  have h := c1_identity_dedup c1Rows hids "E1"
  exact ⟨hids,
    h.1 ⟨⟨1, 10, some "E1", none, some ⟨2020, 1, 1⟩⟩, by decide, rfl⟩,
    h.2 ⟨⟨1, 10, some "E1", none, some ⟨2020, 1, 1⟩⟩, by decide, rfl, rfl⟩⟩

end ZaroHR
